import Mathlib

/-!
Verification of the barcode-detection pipeline of the pdf-processor
repository (package processor, file pdf.go), as a shallow embedding.

Modelling conventions:
- 8-bit machine integers (uint8) are modelled as Nat; where the source
  performs uint8 subtraction (which wraps modulo 256) we use sub8, the
  explicit wrapping subtraction.
- float64 arithmetic in the source (the luminance formula and the
  contrast-stretch normalisation) is modelled as exact rational
  arithmetic followed by the truncation performed by Go's
  float-to-integer conversion; on natural numbers these composites are
  Nat multiplication and floor division.
- Go's image.Image is modelled as a width, a height and a pixel
  function returning 8-bit RGB samples (the r>>8, g>>8, b>>8 values the
  source reads from RGBA()); image.Gray is a Nat-valued pixel function.
- environment variables are modelled as the String that os.Getenv
  returns (the empty string when the variable is unset).
-/

namespace PdfProcessor

/-- Wrapping subtraction of 8-bit values, the semantics of
Go's a - b on uint8 operands (a, b < 256). -/
def sub8 (a b : Nat) : Nat := (a + 256 - b) % 256

/-- An 8-bit RGB sample triple, as read from img.At(x, y).RGBA()
after the r>>8 shifts in preprocessImage. -/
structure RGB where
  r : Fin 256
  g : Fin 256
  b : Fin 256

/-- A raster image: bounds plus a pixel accessor (meaningful for
x < width, y < height). -/
structure Image where
  width : Nat
  height : Nat
  pixel : Nat → Nat → RGB

/-- A grayscale raster (image.Gray in the source). -/
structure GrayImage where
  width : Nat
  height : Nat
  pixel : Nat → Nat → Nat

/-- The luminance conversion of preprocessImage:
uint8(0.299*r + 0.587*g + 0.114*b), modelled exactly with the final
truncation as Nat floor division. -/
def luminance (p : RGB) : Nat :=
  (299 * p.r.val + 587 * p.g.val + 114 * p.b.val) / 1000

/-- The grayscale value the first pass of preprocessImage writes at
pixel (x, y). -/
def grayAt (img : Image) (x y : Nat) : Nat := luminance (img.pixel x y)

/-- The grayscale image produced by the first (single-pass luminance)
loop of preprocessImage. -/
def grayOf (img : Image) : GrayImage :=
  ⟨img.width, img.height, fun x y => grayAt img x y⟩

/-- The pixel coordinates the two loops of preprocessImage visit, in
source order (y outer, x inner). -/
def pixelCoords (img : Image) : List (Nat × Nat) :=
  (List.range img.height).flatMap (fun y => (List.range img.width).map (fun x => (x, y)))

/-- The running minimum the first pass maintains:
min starts at 255 and is lowered whenever grayVal < min. -/
def minLum (img : Image) : Nat :=
  (pixelCoords img).foldl
    (fun m c => if grayAt img c.1 c.2 < m then grayAt img c.1 c.2 else m) 255

/-- The running maximum the first pass maintains:
max starts at 0 and is raised whenever grayVal > max. -/
def maxLum (img : Image) : Nat :=
  (pixelCoords img).foldl
    (fun m c => if m < grayAt img c.1 c.2 then grayAt img c.1 c.2 else m) 0

/-- The pre-binarization value of the second pass:
uint8((float64(original-min) / float64(max-min)) * 255), with the uint8
subtractions wrapping and the float work exact followed by truncation. -/
def normalizePixel (original mn mx : Nat) : Nat :=
  sub8 original mn * 255 / sub8 mx mn

/-- The second pass of preprocessImage: contrast stretching followed by
hard thresholding (normalized > 128 gives 255, else 0). -/
def stretchThreshold (gray : GrayImage) (mn mx : Nat) : GrayImage :=
  ⟨gray.width, gray.height,
    fun x y => if 128 < normalizePixel (gray.pixel x y) mn mx then 255 else 0⟩

/-- preprocessImage from pdf.go: single-pass grayscale conversion with
running min/max, then the contrast decision (small image forces
min=0/max=255; otherwise a measured range below 30 returns the plain
grayscale), then the stretching + thresholding pass. -/
def preprocessImage (img : Image) : GrayImage :=
  if img.width < 100 ∨ img.height < 100 then
    stretchThreshold (grayOf img) 0 255
  else if sub8 (maxLum img) (minLum img) < 30 then
    grayOf img
  else
    stretchThreshold (grayOf img) (minLum img) (maxLum img)

/-- The min value the contrast decision hands to the stretching pass. -/
def chosenMin (img : Image) : Nat :=
  if img.width < 100 ∨ img.height < 100 then 0 else minLum img

/-- The max value the contrast decision hands to the stretching pass. -/
def chosenMax (img : Image) : Nat :=
  if img.width < 100 ∨ img.height < 100 then 255 else maxLum img

/-- The stretching pass executes (the low-contrast early return is not
taken): the image is small, or the measured range is at least 30. -/
def branchTaken (img : Image) : Prop :=
  img.width < 100 ∨ img.height < 100 ∨ 30 ≤ sub8 (maxLum img) (minLum img)

theorem luminance_le (p : RGB) : luminance p ≤ 255 := by
  have hr : p.r.val ≤ 255 := Nat.lt_succ_iff.mp p.r.isLt
  have hg : p.g.val ≤ 255 := Nat.lt_succ_iff.mp p.g.isLt
  have hb : p.b.val ≤ 255 := Nat.lt_succ_iff.mp p.b.isLt
  have h : 299 * p.r.val + 587 * p.g.val + 114 * p.b.val ≤ 255000 := by omega
  calc (299 * p.r.val + 587 * p.g.val + 114 * p.b.val) / 1000
      ≤ 255000 / 1000 := Nat.div_le_div_right h
    _ = 255 := by norm_num

theorem grayAt_le (img : Image) (x y : Nat) : grayAt img x y ≤ 255 :=
  luminance_le _

theorem sub8_eq (a b : Nat) (h1 : b ≤ a) (h2 : a ≤ 255) : sub8 a b = a - b := by
  unfold sub8
  have h3 : a + 256 - b = (a - b) + 256 := by omega
  rw [h3, Nat.add_mod_right]
  exact Nat.mod_eq_of_lt (by omega)

theorem mem_pixelCoords (img : Image) (x y : Nat) :
    (x, y) ∈ pixelCoords img ↔ x < img.width ∧ y < img.height := by
  simp only [pixelCoords, List.mem_flatMap, List.mem_map, List.mem_range]
  constructor
  · rintro ⟨y0, hy0, x0, hx0, h⟩
    cases h
    exact ⟨hx0, hy0⟩
  · rintro ⟨hx, hy⟩
    exact ⟨y, hy, x, hx, rfl⟩

theorem foldl_minStep_le_init (f : α → Nat) :
    ∀ (l : List α) (a : Nat),
      l.foldl (fun m c => if f c < m then f c else m) a ≤ a := by
  intro l
  induction l with
  | nil => intro a; exact Nat.le_refl a
  | cons c cs ih =>
    intro a
    simp only [List.foldl_cons]
    by_cases h : f c < a
    · rw [if_pos h]
      exact Nat.le_trans (ih (f c)) (Nat.le_of_lt h)
    · rw [if_neg h]
      exact ih a

theorem foldl_minStep_le_mem (f : α → Nat) :
    ∀ (l : List α) (a : Nat) (x : α), x ∈ l →
      l.foldl (fun m c => if f c < m then f c else m) a ≤ f x := by
  intro l
  induction l with
  | nil => intro a x hx; cases hx
  | cons c cs ih =>
    intro a x hx
    simp only [List.foldl_cons]
    rcases List.mem_cons.mp hx with h | h
    · subst h
      by_cases hlt : f x < a
      · rw [if_pos hlt]
        exact foldl_minStep_le_init f cs (f x)
      · rw [if_neg hlt]
        exact Nat.le_trans (foldl_minStep_le_init f cs a) (Nat.le_of_not_lt hlt)
    · by_cases hlt : f c < a
      · rw [if_pos hlt]; exact ih (f c) x h
      · rw [if_neg hlt]; exact ih a x h

theorem init_le_foldl_maxStep (f : α → Nat) :
    ∀ (l : List α) (a : Nat),
      a ≤ l.foldl (fun m c => if m < f c then f c else m) a := by
  intro l
  induction l with
  | nil => intro a; exact Nat.le_refl a
  | cons c cs ih =>
    intro a
    simp only [List.foldl_cons]
    by_cases h : a < f c
    · rw [if_pos h]
      exact Nat.le_trans (Nat.le_of_lt h) (ih (f c))
    · rw [if_neg h]
      exact ih a

theorem le_foldl_maxStep_mem (f : α → Nat) :
    ∀ (l : List α) (a : Nat) (x : α), x ∈ l →
      f x ≤ l.foldl (fun m c => if m < f c then f c else m) a := by
  intro l
  induction l with
  | nil => intro a x hx; cases hx
  | cons c cs ih =>
    intro a x hx
    simp only [List.foldl_cons]
    rcases List.mem_cons.mp hx with h | h
    · subst h
      by_cases hlt : a < f x
      · rw [if_pos hlt]
        exact init_le_foldl_maxStep f cs (f x)
      · rw [if_neg hlt]
        exact Nat.le_trans (Nat.le_of_not_lt hlt) (init_le_foldl_maxStep f cs a)
    · by_cases hlt : a < f c
      · rw [if_pos hlt]; exact ih (f c) x h
      · rw [if_neg hlt]; exact ih a x h

theorem foldl_maxStep_le (f : α → Nat) :
    ∀ (l : List α) (a b : Nat), a ≤ b → (∀ x ∈ l, f x ≤ b) →
      l.foldl (fun m c => if m < f c then f c else m) a ≤ b := by
  intro l
  induction l with
  | nil => intro a b ha _; exact ha
  | cons c cs ih =>
    intro a b ha hall
    simp only [List.foldl_cons]
    by_cases h : a < f c
    · rw [if_pos h]
      exact ih (f c) b (hall c (List.mem_cons_self c cs)) (fun x hx => hall x (List.mem_cons_of_mem c hx))
    · rw [if_neg h]
      exact ih a b ha (fun x hx => hall x (List.mem_cons_of_mem c hx))

theorem minLum_le_grayAt (img : Image) (x y : Nat)
    (hx : x < img.width) (hy : y < img.height) :
    minLum img ≤ grayAt img x y :=
  foldl_minStep_le_mem (fun (c : Nat × Nat) => grayAt img c.1 c.2) (pixelCoords img) 255 (x, y)
    ((mem_pixelCoords img x y).mpr ⟨hx, hy⟩)

theorem grayAt_le_maxLum (img : Image) (x y : Nat)
    (hx : x < img.width) (hy : y < img.height) :
    grayAt img x y ≤ maxLum img :=
  le_foldl_maxStep_mem (fun (c : Nat × Nat) => grayAt img c.1 c.2) (pixelCoords img) 0 (x, y)
    ((mem_pixelCoords img x y).mpr ⟨hx, hy⟩)

theorem maxLum_le (img : Image) : maxLum img ≤ 255 :=
  foldl_maxStep_le (fun (c : Nat × Nat) => grayAt img c.1 c.2) (pixelCoords img) 0 255
    (Nat.zero_le 255) (fun _ _ => grayAt_le img _ _)

theorem minLum_le_maxLum (img : Image)
    (hw : 0 < img.width) (hh : 0 < img.height) :
    minLum img ≤ maxLum img :=
  Nat.le_trans (minLum_le_grayAt img 0 0 hw hh) (grayAt_le_maxLum img 0 0 hw hh)

theorem preprocess_branch (img : Image) (h : branchTaken img) :
    preprocessImage img = stretchThreshold (grayOf img) (chosenMin img) (chosenMax img) := by
  unfold preprocessImage chosenMin chosenMax
  by_cases hs : img.width < 100 ∨ img.height < 100
  · rw [if_pos hs, if_pos hs, if_pos hs]
  · rcases h with h | h | h
    · exact absurd (Or.inl h) hs
    · exact absurd (Or.inr h) hs
    · rw [if_neg hs, if_neg hs, if_neg hs, if_neg (Nat.not_lt.mpr h)]

/-! ## Decoder cascade (extractBarcodeFromImage) -/

/-- The six one-dimensional reader kinds constructed in
extractBarcodeFromImage. -/
inductive ReaderKind where
  | upcEan
  | code128
  | code39
  | code93
  | itf
  | codaBar
deriving DecidableEq

/-- The readers slice of extractBarcodeFromImage, in source order. -/
def readers : List ReaderKind :=
  [ReaderKind.upcEan, ReaderKind.code128, ReaderKind.code39,
   ReaderKind.code93, ReaderKind.itf, ReaderKind.codaBar]

/-- The reader loop of extractBarcodeFromImage: try each reader in
order, return the first successful decode, remember the last error. -/
def cascadeLoop (decode : ReaderKind → Except String String) :
    List ReaderKind → Option String → Except String String
  | [], lastErr =>
    Except.error ("no barcode found with any reader, last error: " ++ lastErr.getD "<nil>")
  | r :: rest, _lastErr =>
    match decode r with
    | Except.ok text => Except.ok text
    | Except.error e => cascadeLoop decode rest (some e)

/-- extractBarcodeFromImage after preprocessing: bitmap construction
may fail (hard error, no reader runs); otherwise the reader cascade
runs. The gozxing readers are external collaborators, abstracted as the
decode oracle applied to the fixed preprocessed bitmap. -/
def extractBarcodeFromImage (bitmap : Except String Unit)
    (decode : ReaderKind → Except String String) : Except String String :=
  match bitmap with
  | Except.error e => Except.error ("error creating binary bitmap: " ++ e)
  | Except.ok _ => cascadeLoop decode readers none

/-! ## String helpers with Go semantics -/

/-- Go strings.Split(s, "_") on the character list: split around every
occurrence of the separator. -/
def splitCharList (sep : Char) : List Char → List (List Char)
  | [] => [[]]
  | c :: cs =>
    match splitCharList sep cs with
    | [] => [[]]
    | g :: gs => if c = sep then [] :: g :: gs else (c :: g) :: gs

/-- strings.Split(name, "_") from the page-selection loop. -/
def splitUnderscore (s : String) : List String :=
  (splitCharList '_' s.toList).map (fun cs => String.mk cs)

/-- filepath.Ext on the character list: the suffix starting at the
final dot, empty if there is none (the names considered contain no
path separator). -/
def extList : List Char → List Char
  | [] => []
  | c :: cs =>
    match extList cs with
    | [] => if c = '.' then c :: cs else []
    | g :: gs => g :: gs

/-- filepath.Ext from the page-selection loop. -/
def filepathExt (s : String) : String :=
  String.mk (extList s.toList)

/-- The numeric value of a decimal digit character. -/
def digitVal (c : Char) : Option Nat :=
  if 48 ≤ c.toNat ∧ c.toNat ≤ 57 then some (c.toNat - 48) else none

/-- Accumulate decimal digits; any non-digit character fails. -/
def digitsToNatAux : List Char → Nat → Option Nat
  | [], acc => some acc
  | c :: cs, acc =>
    match digitVal c with
    | some d => digitsToNatAux cs (acc * 10 + d)
    | none => none

/-- A non-empty all-digit character list read as a Nat. -/
def digitsToNat : List Char → Option Nat
  | [] => none
  | c :: cs => digitsToNatAux (c :: cs) 0

/-- Go strconv.Atoi: optional sign then one or more decimal digits;
anything else is an error (modelled without the int64 range check,
which the configured values in question never reach). -/
def goAtoi (s : String) : Option Int :=
  match s.toList with
  | [] => none
  | '+' :: rest => (digitsToNat rest).map (fun n => (n : Int))
  | '-' :: rest => (digitsToNat rest).map (fun n => -(n : Int))
  | cs => (digitsToNat cs).map (fun n => (n : Int))

/-- Byte-order strict comparison of character lists, the order Go uses
to compare strings (identical to code-point order on ASCII names). -/
def lexLt : List Char → List Char → Bool
  | [], [] => false
  | [], _ :: _ => true
  | _ :: _, [] => false
  | a :: as, b :: bs =>
    if a.toNat < b.toNat then true
    else if b.toNat < a.toNat then false
    else lexLt as bs

/-- Go string comparison s < t. -/
def strLt (a b : String) : Bool := lexLt a.toList b.toList

/-- Insert into a sorted list, before the first strictly larger
element. -/
def insertStr (x : String) : List String → List String
  | [] => [x]
  | y :: ys => if strLt x y then x :: y :: ys else y :: insertStr x ys

/-- sort.Strings: sort a string slice into increasing byte order. -/
def sortStrings : List String → List String
  | [] => []
  | x :: xs => insertStr x (sortStrings xs)

/-! ## Page selector (HandleRequest, file-selection loop) -/

/-- One entry returned by os.ReadDir. -/
structure DirEntry where
  name : String
  isDir : Bool

/-- The keep condition of the selection loop: not a directory, not the
.pdf source document, at least two underscore-separated parts, and the
second part parses to a page number within the limit. -/
def keepFile (pageLimit : Int) (e : DirEntry) : Bool :=
  !e.isDir && (filepathExt e.name != ".pdf") &&
    (if 2 ≤ (splitUnderscore e.name).length then
       match goAtoi ((splitUnderscore e.name).getD 1 "") with
       | some pageNum => decide (pageNum ≤ pageLimit)
       | none => false
     else false)

/-- The page selection of HandleRequest: accumulate the kept names in
directory order, then sort.Strings for a consistent processing order. -/
def selectFiles (files : List DirEntry) (pageLimit : Int) : List String :=
  sortStrings
    (files.foldl (fun acc f => if keepFile pageLimit f then acc ++ [f.name] else acc) [])

/-! ## Page-limit parsing (HandleRequest) -/

/-- The first, guarded parse of PDF_PAGE_LIMIT (default 1; a parsed
value is accepted only when positive). Its result is later overwritten
by pageLimitUsed. -/
def pageLimitFirstParse (env : String) : Int :=
  if env ≠ "" then
    match goAtoi env with
    | some limit => if 0 < limit then limit else 1
    | none => 1
  else 1

/-- The second parse of PDF_PAGE_LIMIT, whose result the selection loop
actually uses: empty defaults to "1"; a parse error defaults to 1; any
successfully parsed integer is kept as-is. -/
def pageLimitUsed (env : String) : Int :=
  let pageRange := if env = "" then "1" else env
  match goAtoi pageRange with
  | some n => n
  | none => 1

/-! ## Input validation and response envelope (HandleRequest) -/

/-- The Lambda-style response of HandleRequest. -/
structure Response where
  statusCode : Nat
  body : String
deriving DecidableEq

/-- The four bytes of the "%PDF" magic header. -/
def pdfMagic : List Nat := [37, 80, 68, 70]

/-- The document validation of HandleRequest: an empty byte slice or a
missing %PDF header is rejected with a 400 response and a descriptive
error string; otherwise processing proceeds. -/
def validatePdfBytes (pdfBytes : List Nat) : Option (Response × String) :=
  if pdfBytes.length = 0 then some (⟨400, "Empty PDF file"⟩, "empty PDF file")
  else if pdfBytes.length < 4 ∨ pdfBytes.take 4 ≠ pdfMagic then
    some (⟨400, "Invalid PDF format"⟩, "invalid PDF format")
  else none

/-- The validation stage of HandleRequest ahead of extraction: on
rejection the 400 response and its error are returned at once, and the
extraction-and-scanning continuation is never consulted. -/
def handleDocument (pdfBytes : List Nat)
    (extractAndScan : List Nat → Response × Option String) : Response × Option String :=
  match validatePdfBytes pdfBytes with
  | some (resp, e) => (resp, some e)
  | none => extractAndScan pdfBytes

/-! ## Scan loop and terminal response (HandleRequest) -/

/-- The payload of one callRubyEndpoint notification. -/
structure BarcodeData where
  s3Key : String
  barcodeArray : List String
deriving DecidableEq

/-- What happens to one selected file inside the scan loop. -/
inductive PageOutcome where
  | openError
  | decodeImageError
  | extractError (e : String)
  | extracted (barcode : String)

/-- The scan loop of HandleRequest over the selected files: open and
image-decode failures skip the file; a barcode-extraction failure is
logged and scanning continues; a non-empty extracted barcode is
appended to foundBarcodes and one callRubyEndpoint notification with
that single barcode is sent. Returns the accumulated barcodes and the
notifications sent, in order. -/
def scanSelectedFiles (key : String) (outcomes : List PageOutcome) :
    List String × List BarcodeData :=
  outcomes.foldl
    (fun acc o =>
      match o with
      | PageOutcome.extracted b =>
        if b ≠ "" then (acc.1 ++ [b], acc.2 ++ [⟨key, [b]⟩]) else acc
      | _ => acc)
    ([], [])

/-- json.Marshal of the ResponseBody struct (string escaping is not
modelled; the payloads of interest are plain file keys and barcode
texts). -/
def marshalResponseBody (bucket key : String) (barcodes : List String) : String :=
  "\x7b\"bucket\":\"" ++ bucket ++ "\",\"key\":\"" ++ key ++ "\",\"barcodes\":[" ++
    String.intercalate "," (barcodes.map (fun b => "\"" ++ b ++ "\"")) ++ "]\x7d"

/-- The tail of HandleRequest after the scan loop: with barcodes found,
return 200 with the aggregated list; otherwise return 200 with an
explicit empty array. No further notification is sent in either arm.
Returns the response together with every notification the invocation
sent. -/
def handleScanResults (bucket key : String) (outcomes : List PageOutcome) :
    Response × List BarcodeData :=
  let res := scanSelectedFiles key outcomes
  if 0 < res.1.length then
    (⟨200, marshalResponseBody bucket key res.1⟩, res.2)
  else
    (⟨200, marshalResponseBody bucket key []⟩, res.2)

/-! ## Claim C1: page-limit parsing -/

/-- Claim C1 (code bug): the claim says every configured page-limit
value that is not a positive integer string yields an effective limit
of 1. The first, guarded parse does behave that way, but its result is
overwritten by the re-parse the selection actually uses, which keeps
any successfully parsed integer: a configured "0" or "-3" reaches the
page selection unchanged. A parse failure or an unset variable still
falls back to 1. -/
theorem pageLimit_reparse_keeps_nonpositive :
    pageLimitUsed "0" = 0 ∧ pageLimitUsed "-3" = -3 ∧
    pageLimitFirstParse "0" = 1 ∧ pageLimitFirstParse "-3" = 1 ∧
    pageLimitUsed "" = 1 ∧ pageLimitUsed "abc" = 1 := by decide

/-! ## Claim C9: input validation -/

/-- Claim C9: a document whose bytes are empty or do not begin with
"%PDF" makes HandleRequest return a 400 response with a descriptive
error, and the extraction-and-scanning continuation is never consulted
(the result does not depend on it). -/
theorem invalid_pdf_header_rejected :
    ∀ (pdfBytes : List Nat) (extractAndScan : List Nat → Response × Option String),
      pdfBytes = [] ∨ pdfBytes.take 4 ≠ pdfMagic →
      handleDocument pdfBytes extractAndScan =
        (if pdfBytes = [] then ((⟨400, "Empty PDF file"⟩ : Response), some "empty PDF file")
         else ((⟨400, "Invalid PDF format"⟩ : Response), some "invalid PDF format")) := by
  intro bytes f h
  by_cases hb : bytes = []
  · subst hb; rfl
  · rw [if_neg hb]
    have hlen : ¬ bytes.length = 0 := fun hl => hb (List.length_eq_zero.mp hl)
    have htake : bytes.take 4 ≠ pdfMagic := by
      rcases h with h | h
      · exact absurd h hb
      · exact h
    unfold handleDocument validatePdfBytes
    rw [if_neg hlen, if_pos (Or.inr htake)]

/-- Witness for C9 at the concrete three-byte document [1, 2, 3]. -/
theorem invalid_pdf_header_rejected_witness :
    handleDocument [1, 2, 3] (fun _ => ((⟨200, "ok"⟩ : Response), none)) =
      ((⟨400, "Invalid PDF format"⟩ : Response), some "invalid PDF format") :=
  (invalid_pdf_header_rejected [1, 2, 3] (fun _ => ((⟨200, "ok"⟩ : Response), none))
    (Or.inr (by decide))).trans (by decide)

/-! ## Claim C4: decoder cascade order -/

theorem cascadeLoop_toOption (decode : ReaderKind → Except String String) :
    ∀ (l : List ReaderKind) (lastErr : Option String),
      (cascadeLoop decode l lastErr).toOption =
        l.findSome? (fun r => (decode r).toOption) := by
  intro l
  induction l with
  | nil => intro lastErr; rfl
  | cons r rest ih =>
    intro lastErr
    simp only [cascadeLoop]
    cases hd : decode r with
    | ok text =>
      simp only [hd]
      simp [List.findSome?, hd, Except.toOption]
    | error e =>
      simp only [hd]
      rw [ih (some e)]
      simp [List.findSome?, hd, Except.toOption]

/-- Claim C4: the cascade tries the readers in the fixed order UPC/EAN,
Code128, Code39, Code93, ITF, CodaBar, and its successful results are
exactly the first success in that order: the decoded text of the first
reader whose decode succeeds is returned, later readers are not
consulted after a success, and earlier failures never prevent a later
reader from being attempted (findSome? semantics over the oracle). -/
theorem decoder_cascade_first_success :
    readers = [ReaderKind.upcEan, ReaderKind.code128, ReaderKind.code39,
               ReaderKind.code93, ReaderKind.itf, ReaderKind.codaBar]
    ∧ ∀ (decode : ReaderKind → Except String String),
        (extractBarcodeFromImage (Except.ok ()) decode).toOption =
          readers.findSome? (fun r => (decode r).toOption) :=
  ⟨rfl, fun decode => cascadeLoop_toOption decode readers none⟩

/-! ## Claim C2: notifications of the orchestrator tail -/

/-- Per-page notifications of the scan loop: one callRubyEndpoint
payload per non-empty extracted barcode, each carrying that single
barcode. -/
def perPageNotifications (key : String) (outcomes : List PageOutcome) : List BarcodeData :=
  outcomes.filterMap (fun o =>
    match o with
    | PageOutcome.extracted b => if b ≠ "" then some ⟨key, [b]⟩ else none
    | _ => none)

/-- The aggregated barcode batch of one invocation, in scan order. -/
def collectedBarcodes (outcomes : List PageOutcome) : List String :=
  outcomes.filterMap (fun o =>
    match o with
    | PageOutcome.extracted b => if b ≠ "" then some b else none
    | _ => none)

theorem scanSelectedFiles_eq (key : String) :
    ∀ (outcomes : List PageOutcome) (acc : List String × List BarcodeData),
      outcomes.foldl
        (fun acc o =>
          match o with
          | PageOutcome.extracted b =>
            if b ≠ "" then (acc.1 ++ [b], acc.2 ++ [⟨key, [b]⟩]) else acc
          | _ => acc) acc
      = (acc.1 ++ collectedBarcodes outcomes, acc.2 ++ perPageNotifications key outcomes) := by
  intro outcomes
  induction outcomes with
  | nil =>
    intro acc
    simp [collectedBarcodes, perPageNotifications]
  | cons o os ih =>
    intro acc
    cases o with
    | extracted b =>
      by_cases hb : b = ""
      · subst hb
        simp only [List.foldl_cons, collectedBarcodes, perPageNotifications,
          List.filterMap_cons] at ih ⊢
        simpa using ih acc
      · simp only [List.foldl_cons, collectedBarcodes, perPageNotifications,
          List.filterMap_cons] at ih ⊢
        simp only [hb, ite_true, if_pos, ne_eq, not_false_eq_true]
        rw [ih]
        simp
    | openError =>
      simp only [List.foldl_cons, collectedBarcodes, perPageNotifications,
        List.filterMap_cons] at ih ⊢
      exact ih acc
    | decodeImageError =>
      simp only [List.foldl_cons, collectedBarcodes, perPageNotifications,
        List.filterMap_cons] at ih ⊢
      exact ih acc
    | extractError e =>
      simp only [List.foldl_cons, collectedBarcodes, perPageNotifications,
        List.filterMap_cons] at ih ⊢
      exact ih acc

theorem scanSelectedFiles_spec (key : String) (outcomes : List PageOutcome) :
    scanSelectedFiles key outcomes =
      (collectedBarcodes outcomes, perPageNotifications key outcomes) := by
  unfold scanSelectedFiles
  rw [scanSelectedFiles_eq key outcomes ([], [])]
  simp

/-- The reading of claim C2 on the orchestrator tail: among the
notifications an invocation sends there is one carrying the complete
aggregated batch, for every outcome sequence, including the empty
batch. -/
def batchNotificationClaim : Prop :=
  ∀ (bucket key : String) (outcomes : List PageOutcome),
    ∃ d ∈ (handleScanResults bucket key outcomes).2,
      d.barcodeArray = (scanSelectedFiles key outcomes).1

/-- Claim C2 counterexample: an invocation that scans no files (empty
batch) sends no notification at all, so no terminal batch-level
notification carrying the (empty) aggregated batch exists; the claim
fails at bucket "test-bucket", key "input.pdf", outcomes []. -/
theorem no_terminal_batch_notification : ¬ batchNotificationClaim := by
  intro h
  obtain ⟨d, hd, _⟩ := h "test-bucket" "input.pdf" []
  simp [handleScanResults, scanSelectedFiles] at hd

/-- Claim C2 amended: the success path sends exactly the per-page
notifications (one per non-empty decoded barcode, each carrying that
single barcode) and no batch-level notification; the complete
aggregated batch is instead returned to the invoker in the terminal
200 response body, an explicit empty array when nothing was found. -/
theorem scan_results_notifications_and_response :
    ∀ (bucket key : String) (outcomes : List PageOutcome),
      (handleScanResults bucket key outcomes).2 = perPageNotifications key outcomes
      ∧ (∀ d ∈ (handleScanResults bucket key outcomes).2, ∃ b, d.barcodeArray = [b])
      ∧ (handleScanResults bucket key outcomes).1 =
          ⟨200, marshalResponseBody bucket key (collectedBarcodes outcomes)⟩ := by
  intro bucket key outcomes
  have hscan := scanSelectedFiles_spec key outcomes
  have hsnd : (handleScanResults bucket key outcomes).2 = perPageNotifications key outcomes := by
    unfold handleScanResults
    rw [hscan]
    by_cases hl : 0 < (collectedBarcodes outcomes).length
    · rw [if_pos hl]
    · rw [if_neg hl]
  refine ⟨hsnd, ?_, ?_⟩
  · intro d hd
    rw [hsnd] at hd
    obtain ⟨o, _, ho⟩ := List.mem_filterMap.mp hd
    cases o with
    | extracted b =>
      by_cases hb : b = ""
      · subst hb; simp at ho
      · refine ⟨b, ?_⟩
        simp only [hb, ne_eq, not_false_eq_true, if_pos, ite_true, Option.some.injEq] at ho
        rw [← ho]
    | openError => simp at ho
    | decodeImageError => simp at ho
    | extractError e => simp at ho
  · unfold handleScanResults
    rw [hscan]
    by_cases hl : 0 < (collectedBarcodes outcomes).length
    · rw [if_pos hl]
    · rw [if_neg hl]
      have hnil : collectedBarcodes outcomes = [] :=
        List.length_eq_zero.mp (Nat.eq_zero_of_not_pos hl)
      rw [hnil]

/-- Witness for the amended C2 at a concrete one-page scan that finds
the barcode "ABC123". -/
theorem scan_results_notifications_and_response_witness :
    (handleScanResults "test-bucket" "input.pdf" [PageOutcome.extracted "ABC123"]).2 =
      perPageNotifications "input.pdf" [PageOutcome.extracted "ABC123"] :=
  (scan_results_notifications_and_response "test-bucket" "input.pdf"
    [PageOutcome.extracted "ABC123"]).1

/-- Witness for C4 at a concrete oracle where the first two readers
fail and Code39 succeeds. -/
theorem decoder_cascade_first_success_witness :
    (extractBarcodeFromImage (Except.ok ())
        (fun r => if r = ReaderKind.code39 then Except.ok "A39" else Except.error "NotFoundException")).toOption =
      readers.findSome?
        (fun r => ((fun r => if r = ReaderKind.code39 then Except.ok "A39" else Except.error "NotFoundException") r).toOption) :=
  decoder_cascade_first_success.2
    (fun r => if r = ReaderKind.code39 then Except.ok "A39" else Except.error "NotFoundException")

/-! ## Concrete images for witnesses and counterexamples -/

/-- A 2-by-2 image with a white diagonal (a small image). -/
def img2 : Image :=
  ⟨2, 2, fun x y => if x = y then ⟨255, 255, 255⟩ else ⟨0, 0, 0⟩⟩

/-- A uniformly black 100-by-100 image (a large, zero-contrast image). -/
def imgFlat : Image := ⟨100, 100, fun _ _ => ⟨0, 0, 0⟩⟩

/-- A 100-by-100 black image with one pixel of luminance 40 at (0,0)
and one pixel of luminance 5 at (1,0): measured min 0, measured max
40, so the measured-range stretch runs with max - min = 40. -/
def img3 : Image :=
  ⟨100, 100, fun x y =>
    if x = 0 ∧ y = 0 then ⟨0, 69, 0⟩
    else if x = 1 ∧ y = 0 then ⟨0, 0, 44⟩
    else ⟨0, 0, 0⟩⟩

theorem minLum_imgFlat : minLum imgFlat = 0 := by
  have h := minLum_le_grayAt imgFlat 0 0 (by decide) (by decide)
  have h0 : grayAt imgFlat 0 0 = 0 := by decide
  omega

theorem maxLum_imgFlat : maxLum imgFlat = 0 := by
  have h : maxLum imgFlat ≤ 0 := by
    refine foldl_maxStep_le (fun (c : Nat × Nat) => grayAt imgFlat c.1 c.2)
      (pixelCoords imgFlat) 0 0 (Nat.le_refl 0) ?_
    intro c _
    show grayAt imgFlat c.1 c.2 ≤ 0
    simp [grayAt, imgFlat, luminance]
  omega

theorem minLum_img3 : minLum img3 = 0 := by
  have h := minLum_le_grayAt img3 2 0 (by decide) (by decide)
  have h0 : grayAt img3 2 0 = 0 := by decide
  omega

theorem grayAt_img3_le (x y : Nat) : grayAt img3 x y ≤ 40 := by
  show luminance (img3.pixel x y) ≤ 40
  by_cases h1 : x = 0 ∧ y = 0
  · have hp : img3.pixel x y = ⟨0, 69, 0⟩ := by simp [img3, h1]
    rw [hp]; decide
  · by_cases h2 : x = 1 ∧ y = 0
    · have hp : img3.pixel x y = ⟨0, 0, 44⟩ := by simp [img3, h1, h2]
      rw [hp]; decide
    · have hp : img3.pixel x y = ⟨0, 0, 0⟩ := by simp [img3, h1, h2]
      rw [hp]; decide

theorem maxLum_img3 : maxLum img3 = 40 := by
  have h1 : grayAt img3 0 0 = 40 := by decide
  have h2 := grayAt_le_maxLum img3 0 0 (by decide) (by decide)
  have h3 : maxLum img3 ≤ 40 :=
    foldl_maxStep_le (fun (c : Nat × Nat) => grayAt img3 c.1 c.2) (pixelCoords img3)
      0 40 (by decide) (fun c _ => grayAt_img3_le c.1 c.2)
  omega

/-! ## Claim C5: small images always take the full-range stretch -/

/-- Claim C5: for an input image with either dimension below 100
pixels, preprocessing is the stretch-and-threshold pass over the full
theoretical range (min forced to 0, max forced to 255), regardless of
the measured luminance range; the low-contrast early return is never
taken. -/
theorem small_image_full_range_stretch :
    ∀ img : Image, img.width < 100 ∨ img.height < 100 →
      preprocessImage img = stretchThreshold (grayOf img) 0 255 := by
  intro img h
  unfold preprocessImage
  rw [if_pos h]

/-- Witness for C5 at the concrete 2-by-2 image. -/
theorem small_image_full_range_stretch_witness :
    preprocessImage img2 = stretchThreshold (grayOf img2) 0 255 :=
  small_image_full_range_stretch img2 (Or.inl (by decide))

/-! ## Claim C6: low measured contrast returns the plain grayscale -/

/-- Claim C6: for an input image with both dimensions at least 100 and
measured range max - min below 30, preprocessing returns the
single-pass luminance conversion itself, bit-identical, with no
stretching or thresholding. -/
theorem low_contrast_returns_grayscale :
    ∀ img : Image, 100 ≤ img.width → 100 ≤ img.height →
      maxLum img - minLum img < 30 →
      preprocessImage img = grayOf img := by
  intro img hw hh hr
  have hnot : ¬ (img.width < 100 ∨ img.height < 100) := by omega
  have hmm : minLum img ≤ maxLum img := minLum_le_maxLum img (by omega) (by omega)
  have hc : sub8 (maxLum img) (minLum img) < 30 := by
    rw [sub8_eq _ _ hmm (maxLum_le img)]
    exact hr
  unfold preprocessImage
  rw [if_neg hnot, if_pos hc]

/-- Witness for C6 at the uniformly black 100-by-100 image. -/
theorem low_contrast_returns_grayscale_witness :
    preprocessImage imgFlat = grayOf imgFlat :=
  low_contrast_returns_grayscale imgFlat (by decide) (by decide)
    (by rw [maxLum_imgFlat, minLum_imgFlat]; decide)

/-! ## Claim C7: the stretch branch yields a pure black/white raster -/

/-- Claim C7: whenever the stretching-plus-thresholding branch runs,
the returned image has the input dimensions and every pixel value is
0 or 255. -/
theorem stretch_output_binary :
    ∀ img : Image, branchTaken img →
      (preprocessImage img).width = img.width ∧
      (preprocessImage img).height = img.height ∧
      ∀ x y, (preprocessImage img).pixel x y = 0 ∨ (preprocessImage img).pixel x y = 255 := by
  intro img h
  rw [preprocess_branch img h]
  refine ⟨rfl, rfl, ?_⟩
  intro x y
  show (if 128 < normalizePixel (grayAt img x y) (chosenMin img) (chosenMax img)
        then 255 else 0) = 0 ∨
       (if 128 < normalizePixel (grayAt img x y) (chosenMin img) (chosenMax img)
        then 255 else 0) = 255
  by_cases hc : 128 < normalizePixel (grayAt img x y) (chosenMin img) (chosenMax img)
  · exact Or.inr (if_pos hc)
  · exact Or.inl (if_neg hc)

/-- Witness for C7 at the concrete 2-by-2 image, pixel (0,0). -/
theorem stretch_output_binary_witness :
    (preprocessImage img2).pixel 0 0 = 0 ∨ (preprocessImage img2).pixel 0 0 = 255 :=
  (stretch_output_binary img2 (Or.inl (by decide))).2.2 0 0

/-! ## Claim C10: the stretch divisor is non-zero and nothing wraps -/

/-- Claim C10: whenever the stretching pass executes, its divisor
max - min (as the uint8 subtraction the code performs) is non-zero —
255 for a small image, at least 30 otherwise — and every in-bounds
grayscale value is at least the chosen min, so the per-pixel uint8
subtraction equals the plain difference and never wraps. -/
theorem stretch_divisor_positive_no_wrap :
    ∀ img : Image, branchTaken img →
      0 < sub8 (chosenMax img) (chosenMin img)
      ∧ ((img.width < 100 ∨ img.height < 100) →
          sub8 (chosenMax img) (chosenMin img) = 255)
      ∧ (¬ (img.width < 100 ∨ img.height < 100) →
          30 ≤ sub8 (chosenMax img) (chosenMin img))
      ∧ ∀ x y, x < img.width → y < img.height →
          chosenMin img ≤ grayAt img x y ∧
          sub8 (grayAt img x y) (chosenMin img) = grayAt img x y - chosenMin img := by
  intro img h
  by_cases hs : img.width < 100 ∨ img.height < 100
  · have hmin : chosenMin img = 0 := by unfold chosenMin; rw [if_pos hs]
    have hmax : chosenMax img = 255 := by unfold chosenMax; rw [if_pos hs]
    rw [hmin, hmax]
    refine ⟨by decide, fun _ => by decide, fun hn => absurd hs hn, ?_⟩
    intro x y _ _
    exact ⟨Nat.zero_le _, sub8_eq _ _ (Nat.zero_le _) (grayAt_le img x y)⟩
  · have hmin : chosenMin img = minLum img := by unfold chosenMin; rw [if_neg hs]
    have hmax : chosenMax img = maxLum img := by unfold chosenMax; rw [if_neg hs]
    have h30 : 30 ≤ sub8 (maxLum img) (minLum img) := by
      rcases h with h | h | h
      · exact absurd (Or.inl h) hs
      · exact absurd (Or.inr h) hs
      · exact h
    rw [hmin, hmax]
    refine ⟨by omega, fun hcon => absurd hcon hs, fun _ => h30, ?_⟩
    intro x y hx hy
    have hle := minLum_le_grayAt img x y hx hy
    exact ⟨hle, sub8_eq _ _ hle (grayAt_le img x y)⟩

/-- Witness for C10 at the concrete 2-by-2 image. -/
theorem stretch_divisor_positive_no_wrap_witness :
    0 < sub8 (chosenMax img2) (chosenMin img2) :=
  (stretch_divisor_positive_no_wrap img2 (Or.inl (by decide))).1

/-! ## Claim C3: the normalisation truncates, it does not round -/

/-- Round num/den to the nearest integer, halves up. -/
def roundNearest (num den : Nat) : Nat := (2 * num + den) / (2 * den)

/-- The per-pixel normalisation as the spec words it:
round((original - min) / (max - min) * 255), with plain subtraction
(original is never below min when the pass runs). -/
def specRoundNormalized (original mn mx : Nat) : Nat :=
  roundNearest ((original - mn) * 255) (mx - mn)

/-- The reading of claim C3 on the stretching pass: every
pre-binarization value equals the rounded formula at the min/max the
contrast decision chose. -/
def roundedNormalizationClaim : Prop :=
  ∀ (img : Image) (x y : Nat), branchTaken img → x < img.width → y < img.height →
    normalizePixel (grayAt img x y) (chosenMin img) (chosenMax img) =
      specRoundNormalized (grayAt img x y) (chosenMin img) (chosenMax img)

/-- Claim C3 counterexample: Go's uint8(float) conversion truncates,
it does not round. At img3, pixel (1,0): original 5, min 0, max 40, so
(5/40)*255 = 31.875; the code computes 31, the claimed rounded value
is 32. -/
theorem stretch_normalization_not_rounded : ¬ roundedNormalizationClaim := by
  intro h
  have hmin : chosenMin img3 = 0 := by
    unfold chosenMin
    rw [if_neg (by decide : ¬ (img3.width < 100 ∨ img3.height < 100))]
    exact minLum_img3
  have hmax : chosenMax img3 = 40 := by
    unfold chosenMax
    rw [if_neg (by decide : ¬ (img3.width < 100 ∨ img3.height < 100))]
    exact maxLum_img3
  have hb : branchTaken img3 := by
    refine Or.inr (Or.inr ?_)
    rw [maxLum_img3, minLum_img3]
    decide
  have hg : grayAt img3 1 0 = 5 := by decide
  have hc := h img3 1 0 hb (by decide) (by decide)
  rw [hg, hmin, hmax] at hc
  exact absurd hc (by decide)

/-- Claim C3 amended: in the stretching pass every output pixel is
obtained from normalized = trunc((original - min) / (max - min) * 255)
— truncation toward zero, as Go's uint8 conversion does, not rounding
to nearest — followed by the binarization 255 when normalized > 128
and 0 otherwise. -/
theorem stretch_normalization_truncates :
    ∀ (img : Image) (x y : Nat), branchTaken img → x < img.width → y < img.height →
      (preprocessImage img).pixel x y =
        if 128 < (grayAt img x y - chosenMin img) * 255 / (chosenMax img - chosenMin img)
        then 255 else 0 := by
  intro img x y h hx hy
  rw [preprocess_branch img h]
  have hgle : grayAt img x y ≤ 255 := grayAt_le img x y
  by_cases hs : img.width < 100 ∨ img.height < 100
  · have hmin : chosenMin img = 0 := by unfold chosenMin; rw [if_pos hs]
    have hmax : chosenMax img = 255 := by unfold chosenMax; rw [if_pos hs]
    rw [hmin, hmax]
    show (if 128 < normalizePixel (grayAt img x y) 0 255 then 255 else 0) = _
    unfold normalizePixel
    rw [sub8_eq _ _ (Nat.zero_le _) hgle,
      (by decide : sub8 255 0 = 255 - 0)]
  · have hmin : chosenMin img = minLum img := by unfold chosenMin; rw [if_neg hs]
    have hmax : chosenMax img = maxLum img := by unfold chosenMax; rw [if_neg hs]
    rw [hmin, hmax]
    have hw : 0 < img.width := by omega
    have hh : 0 < img.height := by omega
    have hmle := minLum_le_grayAt img x y hx hy
    show (if 128 < normalizePixel (grayAt img x y) (minLum img) (maxLum img)
          then 255 else 0) = _
    unfold normalizePixel
    rw [sub8_eq _ _ hmle hgle,
      sub8_eq _ _ (minLum_le_maxLum img hw hh) (maxLum_le img)]

/-- Witness for the amended C3 at the concrete 2-by-2 image,
pixel (0,0). -/
theorem stretch_normalization_truncates_witness :
    (preprocessImage img2).pixel 0 0 =
      if 128 < (grayAt img2 0 0 - chosenMin img2) * 255 / (chosenMax img2 - chosenMin img2)
      then 255 else 0 :=
  stretch_normalization_truncates img2 0 0 (Or.inl (by decide)) (by decide) (by decide)

/-! ## Claim C8: the page selector -/

theorem lexLt_trans : ∀ as bs cs, lexLt as bs = true → lexLt bs cs = true →
    lexLt as cs = true := by
  intro as
  induction as with
  | nil =>
    intro bs cs h1 h2
    cases bs with
    | nil => simp [lexLt] at h1
    | cons b bs2 =>
      cases cs with
      | nil => simp [lexLt] at h2
      | cons c cs2 => simp [lexLt]
  | cons a as2 ih =>
    intro bs cs h1 h2
    cases bs with
    | nil => simp [lexLt] at h1
    | cons b bs2 =>
      cases cs with
      | nil => simp [lexLt] at h2
      | cons c cs2 =>
        simp only [lexLt] at h1 h2 ⊢
        by_cases hab : a.toNat < b.toNat
        · by_cases hbc : b.toNat < c.toNat
          · rw [if_pos (by omega : a.toNat < c.toNat)]
          · rw [if_neg hbc] at h2
            by_cases hcb : c.toNat < b.toNat
            · rw [if_pos hcb] at h2; simp at h2
            · rw [if_pos (by omega : a.toNat < c.toNat)]
        · rw [if_neg hab] at h1
          by_cases hba : b.toNat < a.toNat
          · rw [if_pos hba] at h1; simp at h1
          · rw [if_neg hba] at h1
            by_cases hbc : b.toNat < c.toNat
            · rw [if_pos (by omega : a.toNat < c.toNat)]
            · rw [if_neg hbc] at h2
              by_cases hcb : c.toNat < b.toNat
              · rw [if_pos hcb] at h2; simp at h2
              · rw [if_neg hcb] at h2
                rw [if_neg (by omega : ¬ a.toNat < c.toNat),
                  if_neg (by omega : ¬ c.toNat < a.toNat)]
                exact ih bs2 cs2 h1 h2

theorem lexLt_asymm : ∀ as bs, lexLt as bs = true → lexLt bs as = false := by
  intro as
  induction as with
  | nil =>
    intro bs h
    cases bs with
    | nil => simp [lexLt] at h
    | cons b bs2 => simp [lexLt]
  | cons a as2 ih =>
    intro bs h
    cases bs with
    | nil => simp [lexLt] at h
    | cons b bs2 =>
      simp only [lexLt] at h ⊢
      by_cases hab : a.toNat < b.toNat
      · rw [if_neg (by omega : ¬ b.toNat < a.toNat), if_pos hab]
      · rw [if_neg hab] at h
        by_cases hba : b.toNat < a.toNat
        · rw [if_pos hba] at h; simp at h
        · rw [if_neg hba] at h
          rw [if_neg hba, if_neg hab]
          exact ih bs2 h

theorem strLt_trans (a b c : String) (h1 : strLt a b = true) (h2 : strLt b c = true) :
    strLt a c = true :=
  lexLt_trans a.toList b.toList c.toList h1 h2

theorem strLt_asymm (a b : String) (h : strLt a b = true) : strLt b a = false :=
  lexLt_asymm a.toList b.toList h

theorem mem_insertStr (x z : String) :
    ∀ l, z ∈ insertStr x l ↔ z = x ∨ z ∈ l := by
  intro l
  induction l with
  | nil => simp [insertStr]
  | cons y ys ih =>
    simp only [insertStr]
    by_cases h : strLt x y = true
    · rw [if_pos h]
      simp only [List.mem_cons]
    · rw [if_neg h]
      simp only [List.mem_cons, ih]
      tauto

theorem perm_insertStr (x : String) : ∀ l, List.Perm (insertStr x l) (x :: l) := by
  intro l
  induction l with
  | nil => exact List.Perm.refl _
  | cons y ys ih =>
    simp only [insertStr]
    by_cases h : strLt x y = true
    · rw [if_pos h]
    · rw [if_neg h]
      exact List.Perm.trans (List.Perm.cons y ih) (List.Perm.swap x y ys)

theorem perm_sortStrings : ∀ l, List.Perm (sortStrings l) l := by
  intro l
  induction l with
  | nil => exact List.Perm.refl _
  | cons x xs ih =>
    exact List.Perm.trans (perm_insertStr x (sortStrings xs)) (List.Perm.cons x ih)

theorem pairwise_insertStr (x : String) :
    ∀ l, List.Pairwise (fun a b => strLt b a = false) l →
      List.Pairwise (fun a b => strLt b a = false) (insertStr x l) := by
  intro l
  induction l with
  | nil => intro _; simp [insertStr]
  | cons y ys ih =>
    intro hp
    have hy := (List.pairwise_cons.mp hp).1
    have hys := (List.pairwise_cons.mp hp).2
    simp only [insertStr]
    by_cases h : strLt x y = true
    · rw [if_pos h]
      rw [List.pairwise_cons]
      refine ⟨?_, hp⟩
      intro z hz
      rcases List.mem_cons.mp hz with rfl | hz2
      · exact strLt_asymm x z h
      · by_cases hzx : strLt z x = true
        · have h2 := hy z hz2
          rw [strLt_trans z x y hzx h] at h2
          exact Bool.noConfusion h2
        · simp only [Bool.not_eq_true] at hzx
          exact hzx
    · rw [if_neg h]
      rw [List.pairwise_cons]
      constructor
      · intro z hz
        rcases (mem_insertStr x z ys).mp hz with rfl | hz2
        · simp only [Bool.not_eq_true] at h
          exact h
        · exact hy z hz2
      · exact ih hys

theorem pairwise_sortStrings :
    ∀ l, List.Pairwise (fun a b => strLt b a = false) (sortStrings l) := by
  intro l
  induction l with
  | nil => simp [sortStrings]
  | cons x xs ih => exact pairwise_insertStr x (sortStrings xs) ih

theorem foldl_keep (pageLimit : Int) :
    ∀ (l : List DirEntry) (acc : List String),
      l.foldl (fun acc f => if keepFile pageLimit f then acc ++ [f.name] else acc) acc
        = acc ++ (l.filter (keepFile pageLimit)).map DirEntry.name := by
  intro l
  induction l with
  | nil => intro acc; simp
  | cons e es ih =>
    intro acc
    simp only [List.foldl_cons, List.filter_cons]
    by_cases h : keepFile pageLimit e = true
    · rw [if_pos h, if_pos h, ih (acc ++ [e.name])]
      simp
    · rw [if_neg h, if_neg h, ih acc]

/-- The keep condition as claim C8 words it: not a directory, not a
.pdf name, and the second underscore-delimited token parses to an
integer that is at most the page limit (a missing second token reads
as the empty string, which does not parse). -/
def claimKeep (pageLimit : Int) (e : DirEntry) : Bool :=
  !e.isDir && (filepathExt e.name != ".pdf") &&
    (match goAtoi ((splitUnderscore e.name).getD 1 "") with
     | some n => decide (n ≤ pageLimit)
     | none => false)

theorem keepFile_eq_claimKeep (pageLimit : Int) (e : DirEntry) :
    keepFile pageLimit e = claimKeep pageLimit e := by
  unfold keepFile claimKeep
  by_cases h : 2 ≤ (splitUnderscore e.name).length
  · rw [if_pos h]
  · rw [if_neg h]
    have hd : (splitUnderscore e.name).getD 1 "" = "" :=
      List.getD_eq_default _ _ (by omega)
    rw [hd]
    rfl

/-- The directory listing of the end-to-end selection example. -/
def exampleEntries : List DirEntry :=
  [⟨"input.pdf", false⟩, ⟨"page_10_a.png", false⟩,
   ⟨"page_1_a.png", false⟩, ⟨"page_2_a.png", false⟩]

/-- Claim C8: the page selector keeps exactly the non-directory
entries without the .pdf extension whose second underscore-delimited
token parses to an integer at most the page limit (a permutation of
that filtered set), returns them sorted in increasing byte order, and
on the example listing with pageLimit 2 returns exactly
[page_1_a.png, page_2_a.png]. -/
theorem page_selector_filter_sort :
    (∀ (files : List DirEntry) (pageLimit : Int),
        List.Perm (selectFiles files pageLimit)
          ((files.filter (claimKeep pageLimit)).map DirEntry.name))
    ∧ (∀ (files : List DirEntry) (pageLimit : Int),
        List.Pairwise (fun a b => strLt b a = false) (selectFiles files pageLimit))
    ∧ selectFiles exampleEntries 2 = ["page_1_a.png", "page_2_a.png"] := by
  refine ⟨?_, ?_, ?_⟩
  · intro files pageLimit
    unfold selectFiles
    rw [foldl_keep pageLimit files []]
    simp only [List.nil_append]
    have hfil : files.filter (keepFile pageLimit) = files.filter (claimKeep pageLimit) :=
      List.filter_congr (fun e _ => keepFile_eq_claimKeep pageLimit e)
    rw [← hfil]
    exact perm_sortStrings _
  · intro files pageLimit
    unfold selectFiles
    exact pairwise_sortStrings _
  · decide

/-- Witness for C8 at the concrete example listing. -/
theorem page_selector_filter_sort_witness :
    List.Perm (selectFiles exampleEntries 2)
      ((exampleEntries.filter (claimKeep 2)).map DirEntry.name) :=
  page_selector_filter_sort.1 exampleEntries 2

end PdfProcessor
